import Mathlib

/-!
# Verification of `Excel2bSDD_converter.py`

Shallow embedding of the bSDD spreadsheet-to-JSON converter
(`Model/Import Model/spreadsheet-import/Python converter/Excel2bSDD_converter.py`)
and proofs about its row mapper (`jsonify`), null pruner (`clean_nones`),
linker (`excel2bsdd`) and command-line driver.

Python values flowing through the program are modelled by `JValue`
(JSON-shaped data: `None`, booleans, integers, strings, lists, dicts);
Python exceptions (`StopIteration`, `KeyError`, `TypeError`, `IndexError`,
`ValueError`, `AttributeError`) are modelled by `Except PyErr`.
-/

set_option autoImplicit false

namespace Excel2bSDD

/-! ## Definitions: the embedded program -/


/-- A Python value as manipulated by the converter: `None`, `bool`, `int`,
`str`, `list`, and `dict` with string keys in insertion order. -/
inductive JValue where
  | null : JValue
  | bool : Bool → JValue
  | int : Int → JValue
  | str : String → JValue
  | arr : List JValue → JValue
  | obj : List (String × JValue) → JValue
deriving Repr

mutual
/-- Python `==` on the values of our model (structural equality). -/
def JValue.beq : JValue → JValue → Bool
  | .null, .null => true
  | .bool a, .bool b => a == b
  | .int a, .int b => a == b
  | .str a, .str b => a == b
  | .arr xs, .arr ys => JValue.beqList xs ys
  | .obj xs, .obj ys => JValue.beqObj xs ys
  | _, _ => false

def JValue.beqList : List JValue → List JValue → Bool
  | [], [] => true
  | x :: xs, y :: ys => JValue.beq x y && JValue.beqList xs ys
  | _, _ => false

def JValue.beqObj : List (String × JValue) → List (String × JValue) → Bool
  | [], [] => true
  | (k, v) :: xs, (k', v') :: ys => k == k' && JValue.beq v v' && JValue.beqObj xs ys
  | _, _ => false
end

instance : BEq JValue := ⟨JValue.beq⟩

/--
`clean_nones` from the source:

    if isinstance(value, list):
        return [clean_nones(x) for x in value if x is not None]
    elif isinstance(value, dict):
        return {key: clean_nones(val) for key, val in value.items() if val is not None}
    else:
        return value
-/
def clean_nones : JValue → JValue
  | .arr xs => .arr (cleanList xs)
  | .obj kvs => .obj (cleanObj kvs)
  | v => v
where
  /-- `[clean_nones(x) for x in value if x is not None]` -/
  cleanList : List JValue → List JValue
    | [] => []
    | x :: xs => match x with
      | .null => cleanList xs
      | x => clean_nones x :: cleanList xs
  /-- `{key: clean_nones(val) for key, val in value.items() if val is not None}` -/
  cleanObj : List (String × JValue) → List (String × JValue)
    | [] => []
    | (k, v) :: kvs => match v with
      | .null => cleanObj kvs
      | v => (k, clean_nones v) :: cleanObj kvs

/-- `value is None` test used by the comprehensions in `clean_nones`. -/
def isNull : JValue → Bool
  | .null => true
  | _ => false

/-- Recursive absence of `None` entries: no list element and no dict value is
`None`, at any depth. -/
def noNones : JValue → Bool
  | .arr xs => noNonesList xs
  | .obj kvs => noNonesObj kvs
  | _ => true
where
  noNonesList : List JValue → Bool
    | [] => true
    | x :: xs => (!isNull x && noNones x) && noNonesList xs
  noNonesObj : List (String × JValue) → Bool
    | [] => true
    | kv :: kvs => (!isNull kv.2 && noNones kv.2) && noNonesObj kvs

/-- Python exceptions raised by the converter. -/
inductive PyErr where
  | stopIteration
  | keyError (k : String)
  | typeError
  | indexError
  | valueError
  | attributeError
deriving Repr, DecidableEq

/-- Drop leading whitespace from a character list. -/
def skipSp (cs : List Char) : List Char := cs.dropWhile Char.isWhitespace

/-- Longest leading run of decimal digits. -/
def takeDigits : List Char → (List Char × List Char)
  | [] => ([], [])
  | c :: cs =>
    if c.isDigit then
      let (ds, r) := takeDigits cs
      (c :: ds, r)
    else ([], c :: cs)

/-- Value of a digit string. -/
def digitsToNat (ds : List Char) : Nat :=
  ds.foldl (fun a c => a * 10 + (c.toNat - 48)) 0

/-- A signed decimal integer literal at the head of the input. -/
def parseIntTok (cs : List Char) : Option (Int × List Char) :=
  match cs with
  | '-' :: rest =>
    match takeDigits rest with
    | ([], _) => none
    | (ds, r) => some (-(digitsToNat ds : Int), r)
  | _ =>
    match takeDigits cs with
    | ([], _) => none
    | (ds, r) => some ((digitsToNat ds : Int), r)

/-- After the first list item: repeatedly `, <int>` until the closing `]`.
Fuel bounds the recursion by the input length. -/
def parseMore (fuel : Nat) (cs : List Char) : Option (List Int × List Char) :=
  match fuel, skipSp cs with
  | _, ']' :: rest => some ([], rest)
  | fuel + 1, ',' :: rest =>
    match parseIntTok (skipSp rest) with
    | none => none
    | some (n, r1) =>
      match parseMore fuel r1 with
      | none => none
      | some (ns, r2) => some (n :: ns, r2)
  | _, _ => none

/-- Modelled from the spec: `ast.literal_eval` from the Python standard
library, an external collaborator that is not part of this repository. The
spec relies on it only for "literal list expressions" (e.g. `"[1, 2, 3]"` →
`[1, 2, 3]`), so we model the fragment consisting of a bracketed,
comma-separated, optionally whitespace-padded list of signed decimal integer
literals, and — like `literal_eval` on malformed input — report every other
input as a `ValueError`. -/
def literal_eval (s : String) : Except PyErr JValue :=
  match skipSp s.data with
  | '[' :: rest =>
    match skipSp rest with
    | ']' :: r2 => if skipSp r2 = [] then .ok (.arr []) else .error .valueError
    | r1 =>
      match parseIntTok r1 with
      | none => .error .valueError
      | some (n, r2) =>
        match parseMore s.length r2 with
        | none => .error .valueError
        | some (ns, r3) =>
          if skipSp r3 = [] then .ok (.arr ((n :: ns).map JValue.int))
          else .error .valueError
  | _ => .error .valueError

/-- A cell value as it reaches `jsonify`'s column loop, after
`dataframe.astype(object).replace(np.nan, None)`: Python `None`, a pandas
`Timestamp` (carrying the string its `isoformat()` renders to), a `str`, an
`int`, or a `bool`. -/
inductive Cell where
  | none
  | timestamp (iso : String)
  | str (s : String)
  | int (n : Int)
  | bool (b : Bool)
deriving Repr, DecidableEq

/-- Python's substring test `c in s` for a single-character needle. -/
def strContainsChar (s : String) (c : Char) : Bool :=
  s.data.any (fun d => d == c)

/-- The per-cell conversion inside `jsonify`'s column loop:

    if type(column_data) == pd...Timestamp:
        column_data = column_data.isoformat()
    elif type(column_data) == str:
        if "[" in column_data and "]" in column_data:
            content = literal_eval(column_data)
            if isinstance(content, list):
                column_data = content
-/
def convertCell : Cell → Except PyErr JValue
  | .timestamp iso => .ok (.str iso)
  | .str s =>
    if strContainsChar s '[' && strContainsChar s ']' then
      match literal_eval s with
      | .error e => .error e
      | .ok (.arr xs) => .ok (.arr xs)
      | .ok _ => .ok (.str s)
    else .ok (.str s)
  | .none => .ok .null
  | .int n => .ok (.int n)
  | .bool b => .ok (.bool b)

/-- One spreadsheet row: the column names paired with the cell values. -/
abbrev Row := List (String × Cell)

/-- A Python dict with string keys, in insertion order. -/
abbrev JObj := List (String × JValue)

/-- The keys of a dict, in order. -/
def keys (kvs : JObj) : List String := kvs.map Prod.fst

/-- Python dict assignment `d[k] = v`: replaces the value in place when the
key is present (keeping its position), otherwise appends the new key last. -/
def dictSet (kvs : JObj) (k : String) (v : JValue) : JObj :=
  if (keys kvs).contains k then
    kvs.map (fun kv => if kv.1 == k then (kv.1, v) else kv)
  else kvs ++ [(k, v)]

/-- Python `d[k]` on a dict: the value, or `KeyError`. -/
def objGet (kvs : JObj) (k : String) : Except PyErr JValue :=
  match kvs.find? (fun kv => kv.1 == k) with
  | some kv => .ok kv.2
  | none => .error (.keyError k)

/-- Python `d.pop(k)`: the dict without the key (the source always pops a key
it has just read, so the `KeyError` case is unreachable there). -/
def dictPop (kvs : JObj) (k : String) : JObj :=
  kvs.filter (fun kv => kv.1 != k)

/-- The inner column loop of `jsonify`:

    for column_name, column_data in row.items():
        if column_name in new_part:
            ...type coercion...
            new_part[column_name] = column_data
        else:
            print(f"No such property ... in the JSON")

Diagnostics are modelled as the list of unrecognized column names printed. -/
def jsonifyCols (part : JObj) (warns : List String) : Row → Except PyErr (JObj × List String)
  | [] => .ok (part, warns)
  | (column_name, column_data) :: rest =>
    if (keys part).contains column_name then
      match convertCell column_data with
      | .error e => .error e
      | .ok v => jsonifyCols (dictSet part column_name v) warns rest
    else
      jsonifyCols part (warns ++ [column_name]) rest

/-- `jsonify` from the source: one fresh deep copy of the template per row,
recognized columns overwritten, unrecognized ones reported. Returns the list
of row objects together with the diagnostics printed. -/
def jsonify : List Row → JObj → Except PyErr (List JObj × List String)
  | [], _ => .ok ([], [])
  | row :: rest, json_part =>
    match jsonifyCols json_part [] row with
    | .error e => .error e
    | .ok (new_part, w) =>
      match jsonify rest json_part with
      | .error e => .error e
      | .ok (parts, ws) => .ok (new_part :: parts, w ++ ws)

/-- The spec's wording "the trimmed content of the string is enclosed in
square brackets", stated over the character list: after stripping leading and
trailing whitespace the first character is `[` and the last is `]`. For
comparison with the code's actual condition `"[" in s and "]" in s`. -/
def enclosedInBrackets (s : String) : Bool :=
  match (((s.data.dropWhile Char.isWhitespace).reverse.dropWhile Char.isWhitespace).reverse : List Char) with
  | '[' :: rest => rest.getLast? == some ']'
  | _ => false

/-- Python `v[k]` for a string key `k`: dict lookup (`KeyError` when the key
is absent); every non-dict value — including a string — raises `TypeError`
(`string indices must be integers`). -/
def pyIndex (v : JValue) (k : String) : Except PyErr JValue :=
  match v with
  | .obj kvs => objGet kvs k
  | _ => .error .typeError

/-- `next(item for item in items if item["Code"] == related)`: scan the items
in order, evaluating `item["Code"]` (which may raise) until the first match;
`StopIteration` when the items run out. -/
def findMatch : List JValue → JValue → Except PyErr JValue
  | [], _ => .error .stopIteration
  | item :: rest, related =>
    match pyIndex item "Code" with
    | .error e => .error e
    | .ok code =>
      if JValue.beq code related then .ok item
      else findMatch rest related

/-- `next(item for item in parents if item["Code"] == related)[list_key].append(child)`:
first-match scan as in `findMatch`; on the match, append `child` to the
matching item's `list_key` list in place (a missing key raises `KeyError`, a
non-list value has no `.append` and raises `AttributeError`). Returns the
updated parents. -/
def appendToMatch : List JValue → JValue → String → JValue → Except PyErr (List JValue)
  | [], _, _, _ => .error .stopIteration
  | item :: rest, related, listKey, child =>
    match pyIndex item "Code" with
    | .error e => .error e
    | .ok code =>
      if JValue.beq code related then
        match item with
        | .obj kvs =>
          match objGet kvs listKey with
          | .error e => .error e
          | .ok (.arr xs) => .ok (.obj (dictSet kvs listKey (.arr (xs ++ [child]))) :: rest)
          | .ok _ => .error .attributeError
        | _ => .error .typeError
      else
        match appendToMatch rest related listKey child with
        | .error e => .error e
        | .ok rest' => .ok (item :: rest')

/-- One of the linker's simple child loops:

    for child in children:
        related = child[origin_key]
        child.pop(origin_key)
        next(item for item in parents if item["Code"] == related)[list_key].append(child)
-/
def linkChildren : List JObj → List JValue → String → String → Except PyErr (List JValue)
  | [], parents, _, _ => .ok parents
  | child :: rest, parents, originKey, listKey =>
    match objGet child originKey with
    | .error e => .error e
    | .ok related =>
      match appendToMatch parents related listKey (.obj (dictPop child originKey)) with
      | .error e => .error e
      | .ok parents' => linkChildren rest parents' originKey listKey

/-- Python iteration over a value: a list yields its elements, a dict yields
its keys (as strings), anything else is not iterable. -/
def pyIterElems (v : JValue) : Except PyErr (List JValue) :=
  match v with
  | .arr xs => .ok xs
  | .obj kvs => .ok (kvs.map (fun kv => JValue.str kv.1))
  | _ => .error .typeError

/-- The inner loop of the AllowedValue linker, exactly as written:

    for cls in bsdd_data['Classifications']:
        next(item for item in cls if item["Code"] == related)['AllowedValues'].append(prop_val)

Since each `cls` is a dict, `for item in cls` yields the dict's keys
(strings), so `item["Code"]` raises `TypeError` on the first key, and an
empty dict exhausts the generator (`StopIteration`). The `.ok` continuation
after a successful match is unreachable on dict iteration (keys are strings)
and is modelled as moving to the next classification. -/
def linkValIntoClassifications : List JValue → JValue → JValue → Except PyErr Unit
  | [], _, _ => .ok ()
  | cls :: rest, related, prop_val =>
    match pyIterElems cls with
    | .error e => .error e
    | .ok items =>
      match findMatch items related with
      | .error e => .error e
      | .ok item =>
        match pyIndex item "AllowedValues" with
        | .error e => .error e
        | .ok (.arr _) => linkValIntoClassifications rest related prop_val
        | .ok _ => .error .attributeError

/-- The AllowedValue (PropertyValue) loop of the linker:

    for prop_val in prop_vals:
        related = prop_val['(Origin Property Code OR ClassificationProperty Code)']
        prop_val.pop('(Origin Property Code OR ClassificationProperty Code)')
        next(item for item in bsdd_data['Properties'] if item["Code"] == related)['AllowedValues'].append(prop_val)
        for cls in bsdd_data['Classifications']:
            next(item for item in cls if item["Code"] == related)['AllowedValues'].append(prop_val)

Returns the updated Properties list (the Classifications survive unchanged
whenever the inner loop does not raise, i.e. only when there are none). -/
def linkValues : List JObj → List JValue → List JValue → String → Except PyErr (List JValue)
  | [], props, _, _ => .ok props
  | pv :: rest, props, classifications, originKey =>
    match objGet pv originKey with
    | .error e => .error e
    | .ok related =>
      let pv' := dictPop pv originKey
      match appendToMatch props related "AllowedValues" (.obj pv') with
      | .error e => .error e
      | .ok props' =>
        match linkValIntoClassifications classifications related (.obj pv') with
        | .error e => .error e
        | .ok _ => linkValues rest props' classifications originKey

/-- Modelled from the spec: the `Domain` template of the `JSON_templates`
module, which is not among the sources. The spec records that the Domain
template is a recognized-field whitelist whose top-level fields become the
root of the output tree; we include representative identifying fields. -/
def Domain : JObj :=
  [("OrganizationCode", .null), ("DomainCode", .null), ("DomainName", .null),
   ("DomainVersion", .null), ("ReleaseDate", .null), ("LanguageIsoCode", .null)]

/-- Modelled from the spec: the `Classification` template — unique `Code` and
the initially empty child lists `ClassificationProperties`,
`ClassificationRelations`, `AllowedValues` populated by the linker. -/
def Classification : JObj :=
  [("Code", .null), ("Name", .null), ("ClassificationType", .null),
   ("ClassificationProperties", .arr []), ("ClassificationRelations", .arr []),
   ("AllowedValues", .arr [])]

/-- Modelled from the spec: the `Material` template — an independent record
with no children. -/
def Material : JObj :=
  [("Code", .null), ("Name", .null)]

/-- Modelled from the spec: the `Property` template — unique `Code` and the
initially empty child lists `AllowedValues`, `PropertyRelations`. -/
def Property : JObj :=
  [("Code", .null), ("Name", .null), ("DataType", .null),
   ("AllowedValues", .arr []), ("PropertyRelations", .arr [])]

/-- Modelled from the spec: the `ClassificationProperty` template — carries
the `(Origin Classification Code)` linking field (removed once attached) and
a `Code` of its own (AllowedValue resolution may target it). -/
def ClassificationProperty : JObj :=
  [("(Origin Classification Code)", .null), ("Code", .null),
   ("PropertyCode", .null), ("PropertySet", .null)]

/-- Modelled from the spec: the `ClassificationRelation` template — carries
the `(Origin Classification Code)` linking field. -/
def ClassificationRelation : JObj :=
  [("(Origin Classification Code)", .null), ("RelationType", .null),
   ("RelatedClassificationUri", .null)]

/-- Modelled from the spec: the `AllowedValue` template — carries the
`(Origin Property Code OR ClassificationProperty Code)` linking field. -/
def AllowedValue : JObj :=
  [("(Origin Property Code OR ClassificationProperty Code)", .null),
   ("Code", .null), ("Value", .null)]

/-- Modelled from the spec: the `PropertyRelation` template — carries the
`(Origin Property)` linking field. -/
def PropertyRelation : JObj :=
  [("(Origin Property)", .null), ("RelationType", .null),
   ("RelatedPropertyUri", .null)]

/-- The dictionary of dataframes produced by `load_excel` (the workbook
parsing itself is an external collaborator; each sheet arrives as an ordered
list of rows). -/
structure Excel where
  domain : List Row
  classification : List Row
  material : List Row
  property : List Row
  classificationproperty : List Row
  classificationrelation : List Row
  propertyvalue : List Row
  propertyrelation : List Row

/-- `excel2bsdd` from the source, statement by statement. `jsonify(...)[0]`
on an empty result raises `IndexError`; each linking loop is one of the
`linkChildren` / `linkValues` folds above; the `Classifications`,
`Materials` and `Properties` keys are inserted right after their `jsonify`
calls (so they precede nothing and follow the Domain fields), and the linking
loops mutate the very list objects those keys hold, which the final
`dictSet`s reproduce in place. -/
def excel2bsdd (excel : Excel) : Except PyErr JObj :=
  match jsonify excel.domain Domain with
  | .error e => .error e
  | .ok (domains, _) =>
  match domains with
  | [] => .error .indexError
  | bsdd_data :: _ =>
  match jsonify excel.classification Classification with
  | .error e => .error e
  | .ok (classifications, _) =>
  match jsonify excel.material Material with
  | .error e => .error e
  | .ok (materials, _) =>
  match jsonify excel.property Property with
  | .error e => .error e
  | .ok (properties, _) =>
  let bsdd₁ := dictSet bsdd_data "Classifications" (.arr (classifications.map JValue.obj))
  let bsdd₂ := dictSet bsdd₁ "Materials" (.arr (materials.map JValue.obj))
  let bsdd₃ := dictSet bsdd₂ "Properties" (.arr (properties.map JValue.obj))
  match jsonify excel.classificationproperty ClassificationProperty with
  | .error e => .error e
  | .ok (cls_props, _) =>
  match linkChildren cls_props (classifications.map JValue.obj)
      "(Origin Classification Code)" "ClassificationProperties" with
  | .error e => .error e
  | .ok cls₁ =>
  match jsonify excel.classificationrelation ClassificationRelation with
  | .error e => .error e
  | .ok (cls_rels, _) =>
  match linkChildren cls_rels cls₁ "(Origin Classification Code)" "ClassificationRelations" with
  | .error e => .error e
  | .ok cls₂ =>
  match jsonify excel.propertyvalue AllowedValue with
  | .error e => .error e
  | .ok (prop_vals, _) =>
  match linkValues prop_vals (properties.map JValue.obj) cls₂
      "(Origin Property Code OR ClassificationProperty Code)" with
  | .error e => .error e
  | .ok props₁ =>
  match jsonify excel.propertyrelation PropertyRelation with
  | .error e => .error e
  | .ok (prop_rels, _) =>
  match linkChildren prop_rels props₁ "(Origin Property)" "PropertyRelations" with
  | .error e => .error e
  | .ok props₂ =>
  .ok (dictSet (dictSet bsdd₃ "Classifications" (.arr cls₂)) "Properties" (.arr props₂))

/-- The `__main__` driver: `sys.argv[0]`, `sys.argv[1]`, `sys.argv[2]` are
taken as `EXCEL_PATH`, `JSON_PATH`, `WITH_NULLS` (note `sys.argv[0]` is the
script path). The workbook reading collaborator is a map from paths to
workbook contents (`none` = unreadable, pandas raises). The result is the
(path, document) pair written, or `none` when the run raises before the
output file is opened. The flag is the raw string `sys.argv[2]`; `if not
WITH_NULLS` prunes exactly when it is empty. -/
def mainDriver (argv : List String) (workbooks : String → Option Excel) :
    Option (String × JValue) :=
  match argv.get? 0, argv.get? 1, argv.get? 2 with
  | some excel_path, some json_path, some with_nulls =>
    match workbooks excel_path with
    | none => none
    | some excel =>
      match excel2bsdd excel with
      | .error _ => none
      | .ok bsdd_data =>
        if with_nulls = "" then some (json_path, clean_nones (.obj bsdd_data))
        else some (json_path, .obj bsdd_data)
  | _, _, _ => none

/-- A workbook with one Classification `Code="A1"` and two
ClassificationProperty rows whose origin is `"A1"`. -/
def exA1 : Excel :=
  { domain := [[("DomainName", Cell.str "D")]]
    classification := [[("Code", Cell.str "A1")]]
    material := []
    property := []
    classificationproperty :=
      [[("(Origin Classification Code)", Cell.str "A1"), ("PropertyCode", Cell.str "P1")],
       [("(Origin Classification Code)", Cell.str "A1"), ("PropertyCode", Cell.str "P2")]]
    classificationrelation := []
    propertyvalue := []
    propertyrelation := [] }

/-- First attached child of `exA1`. -/
def exA1CP1 : JObj := [("Code", .null), ("PropertyCode", .str "P1"), ("PropertySet", .null)]

/-- Second attached child of `exA1`. -/
def exA1CP2 : JObj := [("Code", .null), ("PropertyCode", .str "P2"), ("PropertySet", .null)]

/-- The linked Classification of `exA1`. -/
def exA1Cls : JObj :=
  [("Code", .str "A1"), ("Name", .null), ("ClassificationType", .null),
   ("ClassificationProperties", .arr [.obj exA1CP1, .obj exA1CP2]),
   ("ClassificationRelations", .arr []), ("AllowedValues", .arr [])]

/-- The converter's output tree for `exA1`. -/
def exA1Out : JObj :=
  [("OrganizationCode", .null), ("DomainCode", .null), ("DomainName", .str "D"),
   ("DomainVersion", .null), ("ReleaseDate", .null), ("LanguageIsoCode", .null),
   ("Classifications", .arr [.obj exA1Cls]),
   ("Materials", .arr []), ("Properties", .arr [])]

/-- A workbook with two Classifications sharing `Code="A1"` and one
ClassificationProperty row whose origin is `"A1"`. -/
def exDup : Excel :=
  { domain := [[("DomainName", Cell.str "D")]]
    classification := [[("Code", Cell.str "A1")], [("Code", Cell.str "A1")]]
    material := []
    property := []
    classificationproperty := [[("(Origin Classification Code)", Cell.str "A1")]]
    classificationrelation := []
    propertyvalue := []
    propertyrelation := [] }

/-- The converter's output tree for `exDup`: the child lands on the *first*
of the two matching Classifications; the second is untouched. -/
def exDupOut : JObj :=
  [("OrganizationCode", .null), ("DomainCode", .null), ("DomainName", .str "D"),
   ("DomainVersion", .null), ("ReleaseDate", .null), ("LanguageIsoCode", .null),
   ("Classifications", .arr
     [.obj [("Code", .str "A1"), ("Name", .null), ("ClassificationType", .null),
        ("ClassificationProperties", .arr
          [.obj [("Code", .null), ("PropertyCode", .null), ("PropertySet", .null)]]),
        ("ClassificationRelations", .arr []), ("AllowedValues", .arr [])],
      .obj [("Code", .str "A1"), ("Name", .null), ("ClassificationType", .null),
        ("ClassificationProperties", .arr []),
        ("ClassificationRelations", .arr []), ("AllowedValues", .arr [])]]),
   ("Materials", .arr []), ("Properties", .arr [])]

/-- A workbook with one ClassificationProperty row whose origin `"B9"`
matches no Classification `Code`. -/
def exNoMatch : Excel :=
  { domain := [[("DomainName", Cell.str "D")]]
    classification := [[("Code", Cell.str "A1")]]
    material := []
    property := []
    classificationproperty := [[("(Origin Classification Code)", Cell.str "B9")]]
    classificationrelation := []
    propertyvalue := []
    propertyrelation := [] }

/-- A workbook with one Classification, one Property `Code="P1"` and one
AllowedValue row whose origin code is `"P1"`. -/
def exC3 : Excel :=
  { domain := [[("DomainName", Cell.str "D")]]
    classification := [[("Code", Cell.str "C1")]]
    material := []
    property := [[("Code", Cell.str "P1")]]
    classificationproperty := []
    classificationrelation := []
    propertyvalue :=
      [[("(Origin Property Code OR ClassificationProperty Code)", Cell.str "P1"),
        ("Value", Cell.str "v")]]
    propertyrelation := [] }

/-- `exC3` with the Classification sheet emptied. -/
def exC3NoCls : Excel := { exC3 with classification := [] }

/-- The converter's output tree for `exC3NoCls`: only without any
Classification does the AllowedValue reach its Property. -/
def exC3NoClsOut : JObj :=
  [("OrganizationCode", .null), ("DomainCode", .null), ("DomainName", .str "D"),
   ("DomainVersion", .null), ("ReleaseDate", .null), ("LanguageIsoCode", .null),
   ("Classifications", .arr []), ("Materials", .arr []),
   ("Properties", .arr
     [.obj [("Code", .str "P1"), ("Name", .null), ("DataType", .null),
        ("AllowedValues", .arr [.obj [("Code", .null), ("Value", .str "v")]]),
        ("PropertyRelations", .arr [])]])]

/-- A workbook whose Domain sheet has two rows. -/
def exTwoDomains : Excel :=
  { domain := [[("DomainName", Cell.str "D1")], [("DomainName", Cell.str "D2")]]
    classification := []
    material := []
    property := []
    classificationproperty := []
    classificationrelation := []
    propertyvalue := []
    propertyrelation := [] }

/-- The converter's output tree for `exTwoDomains`: the first Domain row wins
and the second is silently dropped. -/
def exTwoDomainsOut : JObj :=
  [("OrganizationCode", .null), ("DomainCode", .null), ("DomainName", .str "D1"),
   ("DomainVersion", .null), ("ReleaseDate", .null), ("LanguageIsoCode", .null),
   ("Classifications", .arr []), ("Materials", .arr []), ("Properties", .arr [])]

/-- A minimal readable workbook: one (empty) Domain row, every other sheet
empty. -/
def exTrivial : Excel :=
  { domain := [[]], classification := [], material := [], property := []
    classificationproperty := [], classificationrelation := []
    propertyvalue := [], propertyrelation := [] }

/-- The converter's output tree for `exTrivial`. -/
def exTrivialOut : JObj :=
  [("OrganizationCode", .null), ("DomainCode", .null), ("DomainName", .null),
   ("DomainVersion", .null), ("ReleaseDate", .null), ("LanguageIsoCode", .null),
   ("Classifications", .arr []), ("Materials", .arr []), ("Properties", .arr [])]

/-- A runtime value: an immutable scalar inline, or a reference to a heap
cell holding a mutable object. -/
inductive HVal where
  | scalar (v : JValue)
  | ref (a : Nat)
deriving Repr

/-- One mutable Python object: a dict or a list. -/
inductive HCell where
  | dict (kvs : List (String × HVal))
  | list (xs : List HVal)
deriving Repr

/-- The heap: cells addressed by position; allocation appends at the end. -/
abbrev Heap := List HCell

/-- The addresses a value refers to directly. -/
def HVal.refs : HVal → List Nat
  | .scalar _ => []
  | .ref a => [a]

/-- The addresses a cell refers to directly. -/
def HCell.refs : HCell → List Nat
  | .dict kvs => (kvs.map (fun kv => kv.2.refs)).flatten
  | .list xs => (xs.map HVal.refs).flatten

mutual
/-- `copy.deepcopy` on the tree-shaped template objects the converter uses
(dict and list literals have no internal sharing and no cycles, so
`deepcopy`'s memo table is immaterial): every reachable cell is copied into a
fresh cell at the end of the heap. Fuel decreases at each call and bounds
the recursion depth; `none` means exhaustion (or a dangling reference). -/
def deepcopyVal : Nat → Heap → HVal → Option (Heap × HVal)
  | _, h, .scalar v => some (h, .scalar v)
  | 0, _, .ref _ => none
  | fuel + 1, h, .ref a =>
    match h.get? a with
    | none => none
    | some cell =>
      match deepcopyCell fuel h cell with
      | none => none
      | some (h', cell') => some (h' ++ [cell'], .ref h'.length)

/-- Copy the contents of one cell (the fresh cell itself is appended by the
caller). -/
def deepcopyCell : Nat → Heap → HCell → Option (Heap × HCell)
  | 0, _, _ => none
  | fuel + 1, h, .dict kvs =>
    match deepcopyKVs fuel h kvs with
    | none => none
    | some (h', kvs') => some (h', .dict kvs')
  | fuel + 1, h, .list xs =>
    match deepcopyVals fuel h xs with
    | none => none
    | some (h', xs') => some (h', .list xs')

/-- Copy each value of a dict in order. -/
def deepcopyKVs : Nat → Heap → List (String × HVal) → Option (Heap × List (String × HVal))
  | _, h, [] => some (h, [])
  | 0, _, _ :: _ => none
  | fuel + 1, h, (k, v) :: rest =>
    match deepcopyVal fuel h v with
    | none => none
    | some (h', v') =>
      match deepcopyKVs fuel h' rest with
      | none => none
      | some (h'', rest') => some (h'', (k, v') :: rest')

/-- Copy each element of a list in order. -/
def deepcopyVals : Nat → Heap → List HVal → Option (Heap × List HVal)
  | _, h, [] => some (h, [])
  | 0, _, _ :: _ => none
  | fuel + 1, h, v :: rest =>
    match deepcopyVal fuel h v with
    | none => none
    | some (h', v') =>
      match deepcopyVals fuel h' rest with
      | none => none
      | some (h'', rest') => some (h'', v' :: rest')
end

mutual
/-- Materialize a pure JSON value in the heap: scalars inline, containers as
freshly allocated cells (in `jsonify`, the only non-scalar cell values are
the lists `literal_eval` builds freshly for each cell). -/
def allocVal : Heap → JValue → Heap × HVal
  | h, .arr xs =>
    let (h', vs) := allocVals h xs
    (h' ++ [.list vs], .ref h'.length)
  | h, .obj kvs =>
    let (h', kvs') := allocKVs h kvs
    (h' ++ [.dict kvs'], .ref h'.length)
  | h, v => (h, .scalar v)

/-- Allocate list elements left to right. -/
def allocVals : Heap → List JValue → Heap × List HVal
  | h, [] => (h, [])
  | h, x :: xs =>
    let (h', v) := allocVal h x
    let (h'', vs) := allocVals h' xs
    (h'', v :: vs)

/-- Allocate dict values left to right. -/
def allocKVs : Heap → List (String × JValue) → Heap × List (String × HVal)
  | h, [] => (h, [])
  | h, (k, x) :: rest =>
    let (h', v) := allocVal h x
    let (h'', rest') := allocKVs h' rest
    (h'', (k, v) :: rest')
end

/-- Python dict assignment on heap values (same update-in-place-or-append
rule as `dictSet`). -/
def dictSetH (kvs : List (String × HVal)) (k : String) (v : HVal) :
    List (String × HVal) :=
  if (kvs.map Prod.fst).contains k then
    kvs.map (fun kv => if kv.1 == k then (kv.1, v) else kv)
  else kvs ++ [(k, v)]

/-- `new_part[column_name] = v` where `new_part` is the dict cell at `a`. -/
def heapSetField (h : Heap) (a : Nat) (k : String) (v : HVal) : Option Heap :=
  match h.get? a with
  | some (.dict kvs) => some (h.set a (.dict (dictSetH kvs k v)))
  | _ => none

/-- The column loop of `jsonify` on the heap: `new_part` is the dict cell at
`r`; recognized columns are written into it (the converted value freshly
allocated), unrecognized ones are skipped with a diagnostic, and a failing
cell conversion aborts (modelled `none`, as the claim concerns runs in which
`jsonify` returns). -/
def jsonifyColsH (h : Heap) (r : Nat) : Row → Option (Heap × Nat)
  | [] => some (h, r)
  | (column_name, column_data) :: rest =>
    match h.get? r with
    | some (.dict kvs) =>
      if (kvs.map Prod.fst).contains column_name then
        match convertCell column_data with
        | .error _ => none
        | .ok v =>
          let (h₁, hv) := allocVal h v
          match heapSetField h₁ r column_name hv with
          | none => none
          | some h₂ => jsonifyColsH h₂ r rest
      else jsonifyColsH h r rest
    | _ => none

/-- One row of `jsonify` on the heap: `new_part = deepcopy(json_part)`
followed by the column loop on the fresh copy. -/
def jsonifyRowH (fuel : Nat) (h : Heap) (t : Nat) (row : Row) : Option (Heap × Nat) :=
  match deepcopyVal fuel h (.ref t) with
  | some (h₁, .ref r) => jsonifyColsH h₁ r row
  | _ => none

/-- `jsonify` on the heap: the template lives at address `t`; each row yields
the address of its fresh object, collected in order. -/
def jsonifyH (fuel : Nat) (h : Heap) (t : Nat) : List Row → Option (Heap × List Nat)
  | [] => some (h, [])
  | row :: rest =>
    match jsonifyRowH fuel h t row with
    | none => none
    | some (h₁, r) =>
      match jsonifyH fuel h₁ t rest with
      | none => none
      | some (h₂, rs) => some (h₂, r :: rs)

/-- Every cell whose address lies in `[lo, hi)` refers only to addresses in
`[lo, hi)`. -/
def closedOn (h : Heap) (lo hi : Nat) : Prop :=
  ∀ a, lo ≤ a → a < hi → ∀ cell, h.get? a = some cell → ∀ b ∈ cell.refs, lo ≤ b ∧ b < hi

/-- A well-formed heap: no dangling references. -/
def heapClosed (h : Heap) : Prop := closedOn h 0 h.length

/-- `Reaches h a b`: the object at `b` is part of the mutable structure of
the object at `a` (reflexive-transitive closure of direct references). -/
inductive Reaches (h : Heap) : Nat → Nat → Prop where
  | refl (a : Nat) : Reaches h a a
  | step {a b c : Nat} (cell : HCell) :
      Reaches h a b → h.get? b = some cell → c ∈ cell.refs → Reaches h a c

/-- Addresses listed in `rs` all lie in `[lo, hi)`. -/
def refsWithin (rs : List Nat) (lo hi : Nat) : Prop :=
  ∀ b ∈ rs, lo ≤ b ∧ b < hi

/-- A concrete template heap: the template dict at address 0 holding a
scalar field and a nested (mutable) empty list cell at address 1. -/
def tmplHeap : Heap := [.dict [("F", .scalar .null), ("L", .ref 1)], .list []]

/-- Two concrete rows: one recognized column, one unrecognized. -/
def tmplRows : List Row := [[("F", Cell.int 5)], [("G", Cell.str "x")]]

/-- The heap after running `jsonifyH` on `tmplHeap` and `tmplRows`. -/
def outHeap : Heap :=
  [.dict [("F", .scalar .null), ("L", .ref 1)], .list [],
   .list [], .dict [("F", .scalar (.int 5)), ("L", .ref 2)],
   .list [], .dict [("F", .scalar .null), ("L", .ref 4)]]

/-! ## Theorems -/

theorem cleanList_eq (xs : List JValue) :
    clean_nones.cleanList xs =
      (xs.filter (fun x => !isNull x)).map clean_nones := by
  induction xs with
  | nil => rfl
  | cons x xs ih =>
    cases x <;> simp [clean_nones.cleanList, isNull, ih]

theorem cleanObj_eq (kvs : List (String × JValue)) :
    clean_nones.cleanObj kvs =
      (kvs.filter (fun kv => !isNull kv.2)).map (fun kv => (kv.1, clean_nones kv.2)) := by
  induction kvs with
  | nil => rfl
  | cons kv kvs ih =>
    obtain ⟨k, v⟩ := kv
    cases v <;> simp [clean_nones.cleanObj, isNull, ih]

theorem isNull_clean_nones (v : JValue) : isNull (clean_nones v) = isNull v := by
  cases v <;> rfl

theorem noNones_clean_nones (v : JValue) : noNones (clean_nones v) = true :=
  @JValue.rec (fun v => noNones (clean_nones v) = true)
    (fun xs => noNones.noNonesList (clean_nones.cleanList xs) = true)
    (fun kvs => noNones.noNonesObj (clean_nones.cleanObj kvs) = true)
    (fun kv => noNones (clean_nones kv.2) = true)
    rfl (fun _ => rfl) (fun _ => rfl) (fun _ => rfl)
    (fun _ ih => by simpa [clean_nones, noNones] using ih)
    (fun _ ih => by simpa [clean_nones, noNones] using ih)
    rfl
    (fun x xs ih1 ih2 => by
      cases x <;>
        simp_all [clean_nones.cleanList, noNones.noNonesList, isNull, clean_nones, noNones])
    rfl
    (fun kv kvs ih1 ih2 => by
      obtain ⟨k, v⟩ := kv
      cases v <;>
        simp_all [clean_nones.cleanObj, noNones.noNonesObj, isNull, clean_nones, noNones])
    (fun _ v ih => ih)
    v

theorem clean_nones_of_noNones (v : JValue) (h : noNones v = true) : clean_nones v = v := by
  revert h
  refine @JValue.rec (fun v => noNones v = true → clean_nones v = v)
    (fun xs => noNones.noNonesList xs = true → clean_nones.cleanList xs = xs)
    (fun kvs => noNones.noNonesObj kvs = true → clean_nones.cleanObj kvs = kvs)
    (fun kv => noNones kv.2 = true → clean_nones kv.2 = kv.2)
    (fun _ => rfl) (fun _ _ => rfl) (fun _ _ => rfl) (fun _ _ => rfl)
    ?_ ?_ (fun _ => rfl) ?_ (fun _ => rfl) ?_ ?_ v
  · intro xs ih h
    simp only [noNones] at h
    simp [clean_nones, ih h]
  · intro kvs ih h
    simp only [noNones] at h
    simp [clean_nones, ih h]
  · intro x xs ih1 ih2 h
    simp only [noNones.noNonesList, Bool.and_eq_true] at h
    obtain ⟨⟨hx, hv⟩, hxs⟩ := h
    cases x <;> simp_all [clean_nones.cleanList, isNull]
  · intro kv kvs ih1 ih2 h
    obtain ⟨k, v⟩ := kv
    simp only [noNones.noNonesObj, Bool.and_eq_true] at h
    obtain ⟨⟨hx, hv⟩, hxs⟩ := h
    cases v <;> simp_all [clean_nones.cleanObj, isNull]
  · intro k v ih h
    exact ih h

theorem clean_nones_idem (v : JValue) : clean_nones (clean_nones v) = clean_nones v :=
  clean_nones_of_noNones _ (noNones_clean_nones v)

/-- C7: `clean_nones` removes every `None` element from lists and every
`None`-valued key from dicts, recurses into the surviving container values,
preserves (rather than removes) containers that become empty, and maps
`{"A": None, "B": [1, None, 2]}` to `{"B": [1, 2]}`. -/
theorem C7_clean_nones_prunes :
    (∀ xs, clean_nones (.arr xs) =
      .arr ((xs.filter (fun x => !isNull x)).map clean_nones)) ∧
    (∀ kvs, clean_nones (.obj kvs) =
      .obj ((kvs.filter (fun kv => !isNull kv.2)).map (fun kv => (kv.1, clean_nones kv.2)))) ∧
    (∀ v, noNones (clean_nones v) = true) ∧
    clean_nones (.arr [.obj [("A", .null)], .int 7]) = .arr [.obj [], .int 7] ∧
    clean_nones (.obj [("A", .null), ("B", .arr [.int 1, .null, .int 2])]) =
      .obj [("B", .arr [.int 1, .int 2])] :=
  ⟨fun xs => by simp [clean_nones, cleanList_eq],
   fun kvs => by simp [clean_nones, cleanObj_eq],
   noNones_clean_nones, rfl, rfl⟩

/-- C8: null pruning is idempotent, and the surviving entries of a list or a
dict are an order-preserving subsequence of the input entries (each pruned
recursively); dict keys keep their relative order. -/
theorem C8_clean_nones_idempotent :
    (∀ v, clean_nones (clean_nones v) = clean_nones v) ∧
    (∀ xs, ∃ ys, List.Sublist ys xs ∧
      clean_nones (.arr xs) = .arr (ys.map clean_nones)) ∧
    (∀ kvs, ∃ kvs', List.Sublist kvs' kvs ∧
      clean_nones (.obj kvs) = .obj (kvs'.map (fun kv => (kv.1, clean_nones kv.2)))) :=
  ⟨clean_nones_idem,
   fun xs => ⟨xs.filter (fun x => !isNull x), List.filter_sublist xs,
     by simp [clean_nones, cleanList_eq]⟩,
   fun kvs => ⟨kvs.filter (fun kv => !isNull kv.2), List.filter_sublist kvs,
     by simp [clean_nones, cleanObj_eq]⟩⟩

theorem keys_dictSet_of_contains (kvs : JObj) (k : String) (v : JValue)
    (h : (keys kvs).contains k = true) : keys (dictSet kvs k v) = keys kvs := by
  unfold dictSet
  rw [if_pos h]
  simp only [keys, List.map_map]
  refine List.map_congr_left ?_
  intro kv _
  simp only [Function.comp]
  split <;> rfl

theorem jsonifyCols_ok_keys (row : Row) :
    ∀ (part : JObj) (warns : List String) (out : JObj) (ws : List String),
    jsonifyCols part warns row = .ok (out, ws) → keys out = keys part := by
  induction row with
  | nil =>
    intro part warns out ws h
    simp only [jsonifyCols] at h
    cases h
    rfl
  | cons c rest ih =>
    intro part warns out ws h
    obtain ⟨cname, cdata⟩ := c
    simp only [jsonifyCols] at h
    by_cases hc : (keys part).contains cname
    · rw [if_pos hc] at h
      cases hv : convertCell cdata with
      | error e => rw [hv] at h; cases h
      | ok v =>
        rw [hv] at h
        have := ih _ _ _ _ h
        rw [this, keys_dictSet_of_contains _ _ _ hc]
    · rw [if_neg hc] at h
      exact ih _ _ _ _ h

theorem jsonifyCols_ok_warns (row : Row) :
    ∀ (part : JObj) (warns : List String) (out : JObj) (ws : List String),
    jsonifyCols part warns row = .ok (out, ws) →
    (∀ w ∈ warns, w ∈ ws) ∧
    (∀ c ∈ row, (keys part).contains c.1 = false → c.1 ∈ ws) := by
  induction row with
  | nil =>
    intro part warns out ws h
    simp only [jsonifyCols] at h
    cases h
    exact ⟨fun w hw => hw, by simp⟩
  | cons c rest ih =>
    intro part warns out ws h
    obtain ⟨cname, cdata⟩ := c
    simp only [jsonifyCols] at h
    by_cases hc : (keys part).contains cname
    · rw [if_pos hc] at h
      cases hv : convertCell cdata with
      | error e => rw [hv] at h; cases h
      | ok v =>
        rw [hv] at h
        have hkeys := keys_dictSet_of_contains part cname v hc
        obtain ⟨h1, h2⟩ := ih _ _ _ _ h
        refine ⟨h1, ?_⟩
        intro d hd hdf
        rcases List.mem_cons.mp hd with rfl | hd
        · rw [hc] at hdf; cases hdf
        · exact h2 d hd (by rw [hkeys]; exact hdf)
    · rw [if_neg hc] at h
      obtain ⟨h1, h2⟩ := ih _ _ _ _ h
      refine ⟨fun w hw => h1 w (by simp [hw]), ?_⟩
      intro d hd hdf
      rcases List.mem_cons.mp hd with rfl | hd
      · exact h1 cname (by simp)
      · exact h2 d hd hdf

theorem jsonifyCols_total (row : Row) :
    ∀ (part : JObj) (warns : List String),
    (∀ c ∈ row, (keys part).contains c.1 = true → ∃ v, convertCell c.2 = .ok v) →
    ∃ out ws, jsonifyCols part warns row = .ok (out, ws) := by
  induction row with
  | nil => intro part warns _; exact ⟨part, warns, rfl⟩
  | cons c rest ih =>
    intro part warns h
    obtain ⟨cname, cdata⟩ := c
    simp only [jsonifyCols]
    by_cases hc : (keys part).contains cname
    · rw [if_pos hc]
      obtain ⟨v, hv⟩ := h (cname, cdata) (by simp) hc
      rw [hv]
      refine ih _ _ ?_
      intro d hd hdf
      refine h d (by simp [hd]) ?_
      rwa [keys_dictSet_of_contains _ _ _ hc] at hdf
    · rw [if_neg hc]
      exact ih _ _ (fun d hd hdf => h d (by simp [hd]) hdf)

theorem jsonify_ok_shape (dataframe : List Row) :
    ∀ (json_part : JObj) (parts : List JObj) (ws : List String),
    jsonify dataframe json_part = .ok (parts, ws) →
    (∀ part ∈ parts, keys part = keys json_part) ∧
    (∀ row ∈ dataframe, ∀ c ∈ row, (keys json_part).contains c.1 = false → c.1 ∈ ws) := by
  induction dataframe with
  | nil =>
    intro jp parts ws h
    simp only [jsonify] at h
    cases h
    exact ⟨by simp, by simp⟩
  | cons row rest ih =>
    intro jp parts ws h
    simp only [jsonify] at h
    cases h1 : jsonifyCols jp [] row with
    | error e => rw [h1] at h; cases h
    | ok pw =>
      obtain ⟨new_part, w⟩ := pw
      rw [h1] at h
      cases h2 : jsonify rest jp with
      | error e => rw [h2] at h; cases h
      | ok pws =>
        obtain ⟨parts', ws'⟩ := pws
        rw [h2] at h
        cases h
        obtain ⟨ihp, ihw⟩ := ih jp parts' ws' h2
        constructor
        · intro part hp
          rcases List.mem_cons.mp hp with rfl | hp
          · exact jsonifyCols_ok_keys row jp [] _ _ h1
          · exact ihp part hp
        · intro r hr c hc hf
          rcases List.mem_cons.mp hr with rfl | hr
          · have := (jsonifyCols_ok_warns r jp [] _ _ h1).2 c hc hf
            simp [this]
          · have := ihw r hr c hc hf
            simp [this]

theorem jsonify_total (dataframe : List Row) :
    ∀ (json_part : JObj),
    (∀ row ∈ dataframe, ∀ c ∈ row, (keys json_part).contains c.1 = true →
      ∃ v, convertCell c.2 = .ok v) →
    ∃ out, jsonify dataframe json_part = .ok out := by
  induction dataframe with
  | nil => intro jp _; exact ⟨([], []), rfl⟩
  | cons row rest ih =>
    intro jp h
    obtain ⟨out1, ws1, h1⟩ := jsonifyCols_total row jp [] (fun c hc => h row (by simp) c hc)
    obtain ⟨⟨parts2, ws2⟩, h2⟩ := ih jp (fun r hr => h r (by simp [hr]))
    exact ⟨(out1 :: parts2, ws1 ++ ws2), by simp only [jsonify, h1, h2]⟩

/-- C5: the row mapper's output keys are exactly the template's keys (extra
input columns never appear in the output); every unrecognized column name is
reported in the diagnostics; and an unrecognized column merely records a
diagnostic and is skipped, never halting the mapping (only a recognized
column's cell conversion can raise). -/
theorem C5_template_whitelist_closed :
    (∀ (dataframe : List Row) (json_part : JObj) (parts : List JObj) (ws : List String),
      jsonify dataframe json_part = .ok (parts, ws) →
      (∀ part ∈ parts, keys part = keys json_part) ∧
      (∀ row ∈ dataframe, ∀ c ∈ row, (keys json_part).contains c.1 = false → c.1 ∈ ws)) ∧
    (∀ (dataframe : List Row) (json_part : JObj),
      (∀ row ∈ dataframe, ∀ c ∈ row, (keys json_part).contains c.1 = true →
        ∃ v, convertCell c.2 = .ok v) →
      ∃ out, jsonify dataframe json_part = .ok out) ∧
    (∀ (part : JObj) (warns : List String) (c : String) (d : Cell) (rest : Row),
      (keys part).contains c = false →
      jsonifyCols part warns ((c, d) :: rest) = jsonifyCols part (warns ++ [c]) rest) := by
  refine ⟨jsonify_ok_shape, jsonify_total, ?_⟩
  intro part warns c d rest h
  simp only [jsonifyCols, h]
  rfl

/-- Witness for C5 at a concrete dataframe: template `{"F": None}`, one row
with a recognized column `F` and an unrecognized column `G`. -/
theorem C5_template_whitelist_closed_witness :
    keys [("F", JValue.str "x")] = keys [("F", JValue.null)] ∧
    "G" ∈ ["G"] ∧
    (∃ out, jsonify [[("F", Cell.str "x"), ("G", Cell.int 5)]] [("F", JValue.null)] = .ok out) ∧
    jsonifyCols [("F", JValue.null)] [] [("G", Cell.int 5)] =
      jsonifyCols [("F", JValue.null)] ["G"] [] := by
  have h := C5_template_whitelist_closed.1 [[("F", Cell.str "x"), ("G", Cell.int 5)]]
    [("F", JValue.null)] [[("F", JValue.str "x")]] ["G"] rfl
  refine ⟨h.1 _ (by simp),
    h.2 [("F", Cell.str "x"), ("G", Cell.int 5)] (by simp) ("G", Cell.int 5) (by simp) rfl,
    ?_, ?_⟩
  · exact C5_template_whitelist_closed.2.1 _ _ (by
      intro row hr c hc hf
      rcases List.mem_cons.mp hr with rfl | hr
      · rcases List.mem_cons.mp hc with rfl | hc
        · exact ⟨.str "x", rfl⟩
        · rcases List.mem_cons.mp hc with rfl | hc
          · cases hf
          · cases hc
      · cases hr)
  · exact C5_template_whitelist_closed.2.2 [("F", JValue.null)] [] "G" (Cell.int 5) [] rfl

/-- C4 fails as stated: the string cell `"a[1]b"` is not enclosed in square
brackets after trimming, yet the row mapper raises a fatal `ValueError` for
it (the code attempts a literal parse whenever `[` and `]` occur anywhere in
the string) instead of passing the string through unchanged. -/
theorem C4_counterexample_not_enclosed_fatal :
    enclosedInBrackets "a[1]b" = false ∧
    jsonify [[("F", Cell.str "a[1]b")]] [("F", JValue.null)] = .error .valueError :=
  ⟨rfl, rfl⟩

/-- C4 amended: the mapper attempts a literal parse for exactly those string
cells that contain `[` and `]` anywhere in the string (not only when the
trimmed content is enclosed in brackets); a failed parse of such a cell is a
fatal error, a parse yielding a list replaces the cell value by that list,
and strings lacking `[` or `]` pass through unchanged; in particular
`"[1,2,3]"` maps to the 3-element list `[1, 2, 3]`. -/
theorem C4_amended_bracket_cells :
    (∀ s, (strContainsChar s '[' && strContainsChar s ']') = false →
      convertCell (.str s) = .ok (.str s)) ∧
    (∀ s e, (strContainsChar s '[' && strContainsChar s ']') = true →
      literal_eval s = .error e → convertCell (.str s) = .error e) ∧
    (∀ s xs, (strContainsChar s '[' && strContainsChar s ']') = true →
      literal_eval s = .ok (.arr xs) → convertCell (.str s) = .ok (.arr xs)) ∧
    jsonify [[("F", Cell.str "[1,2,3]")]] [("F", JValue.null)] =
      .ok ([[("F", JValue.arr [.int 1, .int 2, .int 3])]], []) := by
  refine ⟨?_, ?_, ?_, rfl⟩
  · intro s h; simp [convertCell, h]
  · intro s e h he; simp [convertCell, h, he]
  · intro s xs h hx; simp [convertCell, h, hx]

/-- Witness for C4 (amended) at concrete strings. -/
theorem C4_amended_bracket_cells_witness :
    convertCell (.str "abc") = .ok (.str "abc") ∧
    convertCell (.str "a[1]b") = .error .valueError ∧
    convertCell (.str " [1, 2] ") = .ok (.arr [.int 1, .int 2]) :=
  ⟨C4_amended_bracket_cells.1 "abc" rfl,
   C4_amended_bracket_cells.2.1 "a[1]b" .valueError rfl rfl,
   C4_amended_bracket_cells.2.2.1 " [1, 2] " [.int 1, .int 2] rfl rfl⟩

theorem appendToMatch_none (parents : List JValue) (related : JValue) (listKey : String)
    (child : JValue)
    (h : ∀ p ∈ parents, ∃ c, pyIndex p "Code" = .ok c ∧ JValue.beq c related = false) :
    appendToMatch parents related listKey child = .error .stopIteration := by
  induction parents with
  | nil => rfl
  | cons p ps ih =>
    obtain ⟨c, hc, hcf⟩ := h p (by simp)
    simp [appendToMatch, hc, hcf, ih (fun q hq => h q (by simp [hq]))]

theorem appendToMatch_head (kvs : JObj) (rest : List JValue) (related : JValue)
    (listKey : String) (child : JValue) (code : JValue) (xs : List JValue)
    (hcode : objGet kvs "Code" = .ok code) (hbeq : JValue.beq code related = true)
    (hlist : objGet kvs listKey = .ok (.arr xs)) :
    appendToMatch (.obj kvs :: rest) related listKey child =
      .ok (.obj (dictSet kvs listKey (.arr (xs ++ [child]))) :: rest) := by
  simp [appendToMatch, pyIndex, hcode, hbeq, hlist]

theorem appendToMatch_found (ps₁ : List JValue) (kvs : JObj) (ps₂ : List JValue)
    (related : JValue) (listKey : String) (child : JValue) (code : JValue) (xs : List JValue)
    (hskip : ∀ p ∈ ps₁, ∃ c, pyIndex p "Code" = .ok c ∧ JValue.beq c related = false)
    (hcode : objGet kvs "Code" = .ok code) (hbeq : JValue.beq code related = true)
    (hlist : objGet kvs listKey = .ok (.arr xs)) :
    appendToMatch (ps₁ ++ .obj kvs :: ps₂) related listKey child =
      .ok (ps₁ ++ .obj (dictSet kvs listKey (.arr (xs ++ [child]))) :: ps₂) := by
  induction ps₁ with
  | nil =>
    simpa using appendToMatch_head kvs ps₂ related listKey child code xs hcode hbeq hlist
  | cons p ps ih =>
    obtain ⟨c, hc, hcf⟩ := hskip p (by simp)
    simp only [List.cons_append, appendToMatch, hc, hcf, Bool.false_eq_true, if_false,
      List.append_eq]
    rw [ih (fun q hq => hskip q (by simp [hq]))]

theorem contains_keys_dictPop (kvs : JObj) (k : String) :
    (keys (dictPop kvs k)).contains k = false := by
  induction kvs with
  | nil => rfl
  | cons kv rest ih =>
    by_cases h : kv.1 = k
    · simpa [dictPop, List.filter_cons, h] using ih
    · simp_all [dictPop, List.filter_cons, keys, h, bne_iff_ne, List.contains_cons]
      exact fun hh => absurd hh.symm h

/-- C1: a child row's designated origin-code field is read and removed, and
the child object is appended to the designated child list of the parent
object whose `Code` equals the origin value (no earlier parent matching);
concretely, a Classification with `Code="A1"` and two ClassificationProperty
rows whose origin is `"A1"` yields a Classification whose
`ClassificationProperties` list has length 2, neither element carrying the
origin-code field. -/
theorem C1_linker_attaches_children :
    (∀ (ps₁ : List JValue) (kvs child : JObj) (ps₂ : List JValue)
       (related code : JValue) (originKey listKey : String) (xs : List JValue),
      objGet child originKey = .ok related →
      (∀ p ∈ ps₁, ∃ c, pyIndex p "Code" = .ok c ∧ JValue.beq c related = false) →
      objGet kvs "Code" = .ok code → JValue.beq code related = true →
      objGet kvs listKey = .ok (.arr xs) →
      linkChildren [child] (ps₁ ++ .obj kvs :: ps₂) originKey listKey =
        .ok (ps₁ ++ .obj (dictSet kvs listKey
          (.arr (xs ++ [.obj (dictPop child originKey)]))) :: ps₂) ∧
      (keys (dictPop child originKey)).contains originKey = false) ∧
    excel2bsdd exA1 = .ok exA1Out ∧
    objGet exA1Cls "ClassificationProperties" = .ok (.arr [.obj exA1CP1, .obj exA1CP2]) ∧
    [JValue.obj exA1CP1, JValue.obj exA1CP2].length = 2 ∧
    (keys exA1CP1).contains "(Origin Classification Code)" = false ∧
    (keys exA1CP2).contains "(Origin Classification Code)" = false := by
  refine ⟨?_, rfl, rfl, rfl, rfl, rfl⟩
  intro ps₁ kvs child ps₂ related code originKey listKey xs hrel hskip hcode hbeq hlist
  refine ⟨?_, contains_keys_dictPop child originKey⟩
  simp only [linkChildren, hrel]
  rw [appendToMatch_found ps₁ kvs ps₂ related listKey _ code xs hskip hcode hbeq hlist]

/-- Witness for C1's general part: one child, one matching parent. -/
theorem C1_linker_attaches_children_witness :
    linkChildren [[("(Origin Classification Code)", JValue.str "A1")]]
      [.obj [("Code", JValue.str "A1"), ("ClassificationProperties", JValue.arr [])]]
      "(Origin Classification Code)" "ClassificationProperties" =
      .ok [.obj [("Code", JValue.str "A1"),
        ("ClassificationProperties", JValue.arr [.obj []])]] ∧
    (keys (dictPop [("(Origin Classification Code)", JValue.str "A1")]
      "(Origin Classification Code)")).contains "(Origin Classification Code)" = false := by
  have h := C1_linker_attaches_children.1 []
    [("Code", JValue.str "A1"), ("ClassificationProperties", JValue.arr [])]
    [("(Origin Classification Code)", JValue.str "A1")] []
    (JValue.str "A1") (JValue.str "A1")
    "(Origin Classification Code)" "ClassificationProperties" []
    rfl (by simp) rfl rfl rfl
  simpa using h

/-- C2 fails as stated: with two Classifications sharing `Code="A1"` and a
ClassificationProperty row whose origin is `"A1"` — more than one matching
parent — the run does not fail at all: it succeeds and silently appends the
child to the first matching parent. -/
theorem C2_counterexample_duplicate_parents_not_fatal :
    excel2bsdd exDup = .ok exDupOut :=
  rfl

/-- C2 amended: the parent lookup is exact first-match on `Code`. When zero
parents match, the lookup raises `StopIteration`, the run fails fatally and
no output file is produced (concretely, a ClassificationProperty row whose
origin matches no Classification `Code` yields no output). When more than one
parent matches, the child is appended to the first matching parent and the
run continues. -/
theorem C2_amended_first_match :
    (∀ (parents : List JValue) (related : JValue) (listKey : String) (child : JValue),
      (∀ p ∈ parents, ∃ c, pyIndex p "Code" = .ok c ∧ JValue.beq c related = false) →
      appendToMatch parents related listKey child = .error .stopIteration) ∧
    (∀ (kvs : JObj) (rest : List JValue) (related : JValue) (listKey : String)
       (child code : JValue) (xs : List JValue),
      objGet kvs "Code" = .ok code → JValue.beq code related = true →
      objGet kvs listKey = .ok (.arr xs) →
      appendToMatch (.obj kvs :: rest) related listKey child =
        .ok (.obj (dictSet kvs listKey (.arr (xs ++ [child]))) :: rest)) ∧
    excel2bsdd exNoMatch = .error .stopIteration ∧
    mainDriver ["conv.py", "out.json", "1"] (fun _ => some exNoMatch) = none :=
  ⟨appendToMatch_none, appendToMatch_head, rfl, rfl⟩

/-- Witness for C2 (amended) at concrete inputs: an empty parent list raises
`StopIteration`; a duplicated parent takes the first match. -/
theorem C2_amended_first_match_witness :
    appendToMatch [] (JValue.str "X") "L" (JValue.obj []) = .error .stopIteration ∧
    appendToMatch
      [.obj [("Code", JValue.str "X"), ("L", JValue.arr [])],
       .obj [("Code", JValue.str "X"), ("L", JValue.arr [])]]
      (JValue.str "X") "L" (JValue.obj []) =
      .ok [.obj [("Code", JValue.str "X"), ("L", JValue.arr [.obj []])],
           .obj [("Code", JValue.str "X"), ("L", JValue.arr [])]] := by
  constructor
  · exact C2_amended_first_match.1 [] (JValue.str "X") "L" (JValue.obj []) (by simp)
  · have h := C2_amended_first_match.2.1
      [("Code", JValue.str "X"), ("L", JValue.arr [])]
      [.obj [("Code", JValue.str "X"), ("L", JValue.arr [])]]
      (JValue.str "X") "L" (JValue.obj []) (JValue.str "X") []
      rfl rfl rfl
    simpa using h

/-- C3: the code contradicts the documented intent. The AllowedValue loop
runs `for cls in bsdd_data['Classifications']: next(item for item in cls
...)`, iterating each Classification *dict* itself, which yields its keys as
strings; `item["Code"]` on a string raises `TypeError`. Hence whenever at
least one Classification exists, every AllowedValue row aborts the run even
if its origin code matches a Property — here `exC3`, whose AllowedValue
origin `"P1"` names an existing Property. Only with zero Classifications
(`exC3NoCls`) does the intended attachment happen. -/
theorem C3_allowedvalue_typeerror :
    excel2bsdd exC3 = .error .typeError ∧
    (∀ (k : String) (v : JValue) (kvs : JObj) (rest : List JValue) (related pv : JValue),
      linkValIntoClassifications (.obj ((k, v) :: kvs) :: rest) related pv =
        .error .typeError) ∧
    excel2bsdd exC3NoCls = .ok exC3NoClsOut := by
  refine ⟨rfl, ?_, rfl⟩
  intro k v kvs rest related pv
  simp [linkValIntoClassifications, pyIterElems, findMatch, pyIndex]

/-- C6 fails as stated: a Domain sheet with two rows does not abort the run;
the converter takes the first row as the root and drops the second. -/
theorem C6_counterexample_two_domain_rows_not_fatal :
    excel2bsdd exTwoDomains = .ok exTwoDomainsOut :=
  rfl

/-- C6 amended: with zero Domain rows the run fails fatally (`IndexError`
from `jsonify(...)[0]`); with one or more rows the first row becomes the root
of the output tree and additional rows are silently ignored, not an error. -/
theorem C6_amended_domain_rows :
    (∀ excel : Excel, excel.domain = [] → excel2bsdd excel = .error .indexError) ∧
    excel2bsdd exTwoDomains = .ok exTwoDomainsOut ∧
    objGet exTwoDomainsOut "DomainName" = .ok (.str "D1") := by
  refine ⟨?_, rfl, rfl⟩
  intro excel h
  obtain ⟨d, c, m, p, cp, cr, pv, pr⟩ := excel
  cases h
  rfl

/-- Witness for C6 (amended): a workbook with an empty Domain sheet. -/
theorem C6_amended_domain_rows_witness :
    excel2bsdd { exTrivial with domain := [] } = .error .indexError :=
  C6_amended_domain_rows.1 { exTrivial with domain := [] } rfl

/-- C9: the code contradicts the documented invocation surface. The driver
reads `EXCEL_PATH` from `sys.argv[0]` — the script path, not the first
positional parameter — and so writes the JSON to `sys.argv[1]`, the *source*
path. With every path readable the run writes to `"in.xlsx"`, the first
positional parameter, instead of `"out.json"`; with only the real workbook
`"in.xlsx"` readable (the intended situation) the run crashes reading the
script path and writes nothing. -/
theorem C9_argv_off_by_one :
    mainDriver ["Excel2bSDD_converter.py", "in.xlsx", "out.json", "1"]
      (fun _ => some exTrivial) = some ("in.xlsx", .obj exTrivialOut) ∧
    mainDriver ["Excel2bSDD_converter.py", "in.xlsx", "out.json", "1"]
      (fun p => if p == "in.xlsx" then some exTrivial else none) = none :=
  ⟨rfl, rfl⟩

theorem get?_of_prefix {h h' : Heap} (hp : h <+: h') {a : Nat} (ha : a < h.length) :
    h'.get? a = h.get? a := by
  obtain ⟨ext, rfl⟩ := hp
  exact List.get?_append ha

theorem closedOn_of_agree {g h : Heap} {lo hi : Nat} (hc : closedOn g lo hi)
    (hag : ∀ a, lo ≤ a → a < hi → h.get? a = g.get? a) : closedOn h lo hi := by
  intro a ha hahi cell hcell b hb
  exact hc a ha hahi cell (by rw [← hag a ha hahi]; exact hcell) b hb

theorem closedOn_union {h : Heap} {lo mid hi : Nat} (h1 : closedOn h lo mid)
    (h2 : closedOn h mid hi) (hlm : lo ≤ mid) (hmh : mid ≤ hi) : closedOn h lo hi := by
  intro a ha hahi cell hcell b hb
  by_cases hm : a < mid
  · obtain ⟨hb1, hb2⟩ := h1 a ha hm cell hcell b hb
    exact ⟨hb1, lt_of_lt_of_le hb2 hmh⟩
  · obtain ⟨hb1, hb2⟩ := h2 a (le_of_not_lt hm) hahi cell hcell b hb
    exact ⟨le_trans hlm hb1, hb2⟩

theorem closedOn_vacuous {h : Heap} {lo hi : Nat} (hle : hi ≤ lo) : closedOn h lo hi := by
  intro a ha hahi
  omega

theorem reaches_trap {h : Heap} {lo hi a b : Nat} (hc : closedOn h lo hi)
    (ha : lo ≤ a) (hahi : a < hi) (hr : Reaches h a b) : lo ≤ b ∧ b < hi := by
  induction hr with
  | refl => exact ⟨ha, hahi⟩
  | step cell hr hcell hmem ih => exact hc _ ih.1 ih.2 cell hcell _ hmem

theorem copy_step {h h₁ : Heap} {cell' : HCell}
    (hp : h <+: h₁) (hrw : refsWithin (HCell.refs cell') h.length h₁.length)
    (hcl : closedOn h₁ h.length h₁.length) :
    h <+: (h₁ ++ [cell']) ∧
    refsWithin (HVal.refs (.ref h₁.length)) h.length (h₁ ++ [cell']).length ∧
    closedOn (h₁ ++ [cell']) h.length (h₁ ++ [cell']).length := by
  have hlen : h.length ≤ h₁.length := hp.length_le
  refine ⟨hp.trans (List.prefix_append h₁ [cell']), ?_, ?_⟩
  · intro b hb
    simp only [HVal.refs, List.mem_singleton] at hb
    subst hb
    simp only [List.length_append, List.length_singleton]
    omega
  · intro a ha hahi cell hcell b hb
    simp only [List.length_append, List.length_singleton] at hahi ⊢
    by_cases haa : a < h₁.length
    · rw [List.get?_append haa] at hcell
      obtain ⟨hb1, hb2⟩ := hcl a ha haa cell hcell b hb
      omega
    · have haeq : a = h₁.length := by omega
      subst haeq
      rw [List.get?_concat_length] at hcell
      cases hcell
      obtain ⟨hb1, hb2⟩ := hrw b hb
      omega

theorem seq_step {h h₁ h₂ : Heap} {rs₁ rs₂ : List Nat}
    (hp1 : h <+: h₁) (hr1 : refsWithin rs₁ h.length h₁.length)
    (hc1 : closedOn h₁ h.length h₁.length)
    (hp2 : h₁ <+: h₂) (hr2 : refsWithin rs₂ h₁.length h₂.length)
    (hc2 : closedOn h₂ h₁.length h₂.length) :
    h <+: h₂ ∧ refsWithin (rs₁ ++ rs₂) h.length h₂.length ∧
    closedOn h₂ h.length h₂.length := by
  have hl1 : h.length ≤ h₁.length := hp1.length_le
  have hl2 : h₁.length ≤ h₂.length := hp2.length_le
  refine ⟨hp1.trans hp2, ?_, ?_⟩
  · intro b hb
    rcases List.mem_append.mp hb with hb | hb
    · obtain ⟨x, y⟩ := hr1 b hb; omega
    · obtain ⟨x, y⟩ := hr2 b hb; omega
  · refine closedOn_union (closedOn_of_agree hc1 ?_) hc2 hl1 hl2
    intro a _ ha2
    exact get?_of_prefix hp2 ha2

theorem deepcopy_spec : ∀ fuel : Nat,
    (∀ h v h' v', deepcopyVal fuel h v = some (h', v') →
      h <+: h' ∧ refsWithin (HVal.refs v') h.length h'.length ∧
      closedOn h' h.length h'.length) ∧
    (∀ h c h' c', deepcopyCell fuel h c = some (h', c') →
      h <+: h' ∧ refsWithin (HCell.refs c') h.length h'.length ∧
      closedOn h' h.length h'.length) ∧
    (∀ h kvs h' kvs', deepcopyKVs fuel h kvs = some (h', kvs') →
      h <+: h' ∧ refsWithin (HCell.refs (.dict kvs')) h.length h'.length ∧
      closedOn h' h.length h'.length) ∧
    (∀ h xs h' xs', deepcopyVals fuel h xs = some (h', xs') →
      h <+: h' ∧ refsWithin (HCell.refs (.list xs')) h.length h'.length ∧
      closedOn h' h.length h'.length) := by
  intro fuel
  induction fuel with
  | zero =>
    refine ⟨?_, ?_, ?_, ?_⟩
    · intro h v h' v' he
      cases v with
      | scalar w =>
        simp only [deepcopyVal, Option.some.injEq, Prod.mk.injEq] at he
        obtain ⟨rfl, rfl⟩ := he
        exact ⟨List.prefix_refl h, by simp [refsWithin, HVal.refs], closedOn_vacuous le_rfl⟩
      | ref a => simp only [deepcopyVal] at he; exact Option.noConfusion he
    · intro h c h' c' he
      simp only [deepcopyCell] at he; exact Option.noConfusion he
    · intro h kvs h' kvs' he
      cases kvs with
      | nil =>
        simp only [deepcopyKVs, Option.some.injEq, Prod.mk.injEq] at he
        obtain ⟨rfl, rfl⟩ := he
        exact ⟨List.prefix_refl h, by simp [refsWithin, HCell.refs], closedOn_vacuous le_rfl⟩
      | cons kv rest => simp only [deepcopyKVs] at he; exact Option.noConfusion he
    · intro h xs h' xs' he
      cases xs with
      | nil =>
        simp only [deepcopyVals, Option.some.injEq, Prod.mk.injEq] at he
        obtain ⟨rfl, rfl⟩ := he
        exact ⟨List.prefix_refl h, by simp [refsWithin, HCell.refs], closedOn_vacuous le_rfl⟩
      | cons x rest => simp only [deepcopyVals] at he; exact Option.noConfusion he
  | succ fuel ih =>
    obtain ⟨ihV, ihC, ihK, ihL⟩ := ih
    refine ⟨?_, ?_, ?_, ?_⟩
    · intro h v h' v' he
      cases v with
      | scalar w =>
        simp only [deepcopyVal, Option.some.injEq, Prod.mk.injEq] at he
        obtain ⟨rfl, rfl⟩ := he
        exact ⟨List.prefix_refl h, by simp [refsWithin, HVal.refs], closedOn_vacuous le_rfl⟩
      | ref a =>
        cases hga : h.get? a with
        | none => simp only [deepcopyVal, hga] at he; exact Option.noConfusion he
        | some cell =>
          simp only [deepcopyVal, hga] at he
          cases hcc : deepcopyCell fuel h cell with
          | none => simp only [hcc] at he; exact Option.noConfusion he
          | some p =>
            obtain ⟨h₁, cell'⟩ := p
            simp only [hcc, Option.some.injEq, Prod.mk.injEq] at he
            obtain ⟨rfl, rfl⟩ := he
            obtain ⟨hp, hrw, hcl⟩ := ihC h cell h₁ cell' hcc
            exact copy_step hp hrw hcl
    · intro h c h' c' he
      cases c with
      | dict kvs =>
        cases hk : deepcopyKVs fuel h kvs with
        | none => simp only [deepcopyCell, hk] at he; exact Option.noConfusion he
        | some p =>
          obtain ⟨h₁, kvs'⟩ := p
          simp only [deepcopyCell, hk, Option.some.injEq, Prod.mk.injEq] at he
          obtain ⟨rfl, rfl⟩ := he
          exact ihK h kvs h₁ kvs' hk
      | list xs =>
        cases hk : deepcopyVals fuel h xs with
        | none => simp only [deepcopyCell, hk] at he; exact Option.noConfusion he
        | some p =>
          obtain ⟨h₁, xs'⟩ := p
          simp only [deepcopyCell, hk, Option.some.injEq, Prod.mk.injEq] at he
          obtain ⟨rfl, rfl⟩ := he
          exact ihL h xs h₁ xs' hk
    · intro h kvs h' kvs' he
      cases kvs with
      | nil =>
        simp only [deepcopyKVs, Option.some.injEq, Prod.mk.injEq] at he
        obtain ⟨rfl, rfl⟩ := he
        exact ⟨List.prefix_refl h, by simp [refsWithin, HCell.refs], closedOn_vacuous le_rfl⟩
      | cons kv rest =>
        obtain ⟨k, v⟩ := kv
        cases hv : deepcopyVal fuel h v with
        | none => simp only [deepcopyKVs, hv] at he; exact Option.noConfusion he
        | some p =>
          obtain ⟨h₁, v'⟩ := p
          cases hr : deepcopyKVs fuel h₁ rest with
          | none => simp only [deepcopyKVs, hv, hr] at he; exact Option.noConfusion he
          | some q =>
            obtain ⟨h₂, rest'⟩ := q
            simp only [deepcopyKVs, hv, hr, Option.some.injEq, Prod.mk.injEq] at he
            obtain ⟨rfl, rfl⟩ := he
            obtain ⟨p1, r1, c1⟩ := ihV h v h₁ v' hv
            obtain ⟨p2, r2, c2⟩ := ihK h₁ rest h₂ rest' hr
            have hs := seq_step p1 r1 c1 p2 r2 c2
            refine ⟨hs.1, ?_, hs.2.2⟩
            intro b hb
            refine hs.2.1 b ?_
            simpa [HCell.refs] using hb
    · intro h xs h' xs' he
      cases xs with
      | nil =>
        simp only [deepcopyVals, Option.some.injEq, Prod.mk.injEq] at he
        obtain ⟨rfl, rfl⟩ := he
        exact ⟨List.prefix_refl h, by simp [refsWithin, HCell.refs], closedOn_vacuous le_rfl⟩
      | cons x rest =>
        cases hv : deepcopyVal fuel h x with
        | none => simp only [deepcopyVals, hv] at he; exact Option.noConfusion he
        | some p =>
          obtain ⟨h₁, v'⟩ := p
          cases hr : deepcopyVals fuel h₁ rest with
          | none => simp only [deepcopyVals, hv, hr] at he; exact Option.noConfusion he
          | some q =>
            obtain ⟨h₂, rest'⟩ := q
            simp only [deepcopyVals, hv, hr, Option.some.injEq, Prod.mk.injEq] at he
            obtain ⟨rfl, rfl⟩ := he
            obtain ⟨p1, r1, c1⟩ := ihV h x h₁ v' hv
            obtain ⟨p2, r2, c2⟩ := ihL h₁ rest h₂ rest' hr
            have hs := seq_step p1 r1 c1 p2 r2 c2
            refine ⟨hs.1, ?_, hs.2.2⟩
            intro b hb
            refine hs.2.1 b ?_
            simpa [HCell.refs] using hb

theorem alloc_spec (v : JValue) : ∀ h : Heap,
    h <+: (allocVal h v).1 ∧
    refsWithin (HVal.refs (allocVal h v).2) h.length (allocVal h v).1.length ∧
    closedOn (allocVal h v).1 h.length (allocVal h v).1.length :=
  @JValue.rec
    (fun v => ∀ h : Heap,
      h <+: (allocVal h v).1 ∧
      refsWithin (HVal.refs (allocVal h v).2) h.length (allocVal h v).1.length ∧
      closedOn (allocVal h v).1 h.length (allocVal h v).1.length)
    (fun xs => ∀ h : Heap,
      h <+: (allocVals h xs).1 ∧
      refsWithin (HCell.refs (.list (allocVals h xs).2)) h.length (allocVals h xs).1.length ∧
      closedOn (allocVals h xs).1 h.length (allocVals h xs).1.length)
    (fun kvs => ∀ h : Heap,
      h <+: (allocKVs h kvs).1 ∧
      refsWithin (HCell.refs (.dict (allocKVs h kvs).2)) h.length (allocKVs h kvs).1.length ∧
      closedOn (allocKVs h kvs).1 h.length (allocKVs h kvs).1.length)
    (fun kv => ∀ h : Heap,
      h <+: (allocVal h kv.2).1 ∧
      refsWithin (HVal.refs (allocVal h kv.2).2) h.length (allocVal h kv.2).1.length ∧
      closedOn (allocVal h kv.2).1 h.length (allocVal h kv.2).1.length)
    (fun h => ⟨List.prefix_refl h, by simp [allocVal, refsWithin, HVal.refs],
      closedOn_vacuous le_rfl⟩)
    (fun _ h => ⟨List.prefix_refl h, by simp [allocVal, refsWithin, HVal.refs],
      closedOn_vacuous le_rfl⟩)
    (fun _ h => ⟨List.prefix_refl h, by simp [allocVal, refsWithin, HVal.refs],
      closedOn_vacuous le_rfl⟩)
    (fun _ h => ⟨List.prefix_refl h, by simp [allocVal, refsWithin, HVal.refs],
      closedOn_vacuous le_rfl⟩)
    (fun xs ih h => by
      obtain ⟨hp, hrw, hcl⟩ := ih h
      have := copy_step hp hrw hcl
      simpa [allocVal] using this)
    (fun kvs ih h => by
      obtain ⟨hp, hrw, hcl⟩ := ih h
      have := copy_step hp hrw hcl
      simpa [allocVal] using this)
    (fun h => ⟨List.prefix_refl h, by simp [allocVals, refsWithin, HCell.refs],
      closedOn_vacuous le_rfl⟩)
    (fun x xs ihx ihxs h => by
      obtain ⟨p1, r1, c1⟩ := ihx h
      obtain ⟨p2, r2, c2⟩ := ihxs (allocVal h x).1
      have hs := seq_step p1 r1 c1 p2 r2 c2
      simp only [allocVals]
      refine ⟨hs.1, ?_, hs.2.2⟩
      intro b hb
      refine hs.2.1 b ?_
      simpa [HCell.refs] using hb)
    (fun h => ⟨List.prefix_refl h, by simp [allocKVs, refsWithin, HCell.refs],
      closedOn_vacuous le_rfl⟩)
    (fun kv kvs ihkv ihkvs h => by
      obtain ⟨p1, r1, c1⟩ := ihkv h
      obtain ⟨p2, r2, c2⟩ := ihkvs (allocVal h kv.2).1
      have hs := seq_step p1 r1 c1 p2 r2 c2
      simp only [allocKVs]
      refine ⟨hs.1, ?_, hs.2.2⟩
      intro b hb
      refine hs.2.1 b ?_
      simpa [HCell.refs] using hb)
    (fun _ v ih => ih)
    v

theorem refs_dictSetH (kvs : List (String × HVal)) (k : String) (v : HVal) :
    ∀ b ∈ (HCell.dict (dictSetH kvs k v)).refs,
      b ∈ (HCell.dict kvs).refs ∨ b ∈ v.refs := by
  intro b hb
  unfold dictSetH at hb
  split at hb
  · simp only [HCell.refs, List.map_map, List.mem_flatten, List.mem_map] at hb
    obtain ⟨rs, ⟨kv, hkv, rfl⟩, hbrs⟩ := hb
    simp only [Function.comp] at hbrs
    by_cases hk : (kv.1 == k) = true
    · rw [if_pos hk] at hbrs
      exact Or.inr hbrs
    · rw [if_neg hk] at hbrs
      refine Or.inl ?_
      simp only [HCell.refs, List.mem_flatten, List.mem_map]
      exact ⟨kv.2.refs, ⟨kv, hkv, rfl⟩, hbrs⟩
  · simp only [HCell.refs, List.map_append, List.flatten_append, List.mem_append] at hb
    rcases hb with hb | hb
    · exact Or.inl (by simpa [HCell.refs] using hb)
    · simp only [List.map_cons, List.map_nil, List.flatten_cons, List.flatten_nil,
        List.append_nil] at hb
      exact Or.inr hb

theorem heapSetField_spec {h : Heap} {a : Nat} {k : String} {v : HVal} {h' : Heap}
    (hs : heapSetField h a k v = some h') :
    h'.length = h.length ∧ (∀ b, b ≠ a → h'.get? b = h.get? b) ∧
    (∀ lo, lo ≤ a → closedOn h lo h.length → refsWithin (HVal.refs v) lo h.length →
      closedOn h' lo h'.length) := by
  unfold heapSetField at hs
  cases hga : h.get? a with
  | none => rw [hga] at hs; cases hs
  | some cell =>
    rw [hga] at hs
    cases cell with
    | list xs => cases hs
    | dict kvs =>
      simp only [Option.some.injEq] at hs
      subst hs
      have halen : a < h.length := by
        by_contra hcon
        rw [List.get?_eq_none.mpr (le_of_not_lt hcon)] at hga
        cases hga
      refine ⟨List.length_set h a _, ?_, ?_⟩
      · intro b hb
        exact List.get?_set_ne _ _ (Ne.symm hb)
      · intro lo hlo hcl hrw
        intro x hx1 hx2 cell hcell b hb
        rw [List.length_set] at hx2
        rw [List.length_set]
        by_cases hxa : x = a
        · subst hxa
          rw [List.get?_set_eq_of_lt _ halen] at hcell
          cases hcell
          rcases refs_dictSetH kvs k v b hb with hbo | hbv
          · exact hcl x hx1 hx2 (.dict kvs) hga b hbo
          · exact hrw b hbv
        · rw [List.get?_set_ne _ _ (fun he => hxa he.symm)] at hcell
          exact hcl x hx1 hx2 cell hcell b hb

theorem jsonifyColsH_spec (row : Row) :
    ∀ (g : Heap) (r lo : Nat) (g' : Heap) (r' : Nat),
    jsonifyColsH g r row = some (g', r') →
    lo ≤ r → r < g.length → closedOn g lo g.length →
    r' = r ∧ (∀ a, a < lo → g'.get? a = g.get? a) ∧
    g.length ≤ g'.length ∧ closedOn g' lo g'.length := by
  induction row with
  | nil =>
    intro g r lo g' r' he h1 h2 h3
    simp only [jsonifyColsH, Option.some.injEq, Prod.mk.injEq] at he
    obtain ⟨rfl, rfl⟩ := he
    exact ⟨rfl, fun a _ => rfl, le_rfl, h3⟩
  | cons c rest ih =>
    intro g r lo g' r' he h1 h2 h3
    obtain ⟨cname, cdata⟩ := c
    have hlog : lo ≤ g.length := le_of_lt (lt_of_le_of_lt h1 h2)
    cases hgr : g.get? r with
    | none => simp only [jsonifyColsH, hgr] at he; exact Option.noConfusion he
    | some cell =>
      cases cell with
      | list xs => simp only [jsonifyColsH, hgr] at he; exact Option.noConfusion he
      | dict kvs =>
        simp only [jsonifyColsH, hgr] at he
        by_cases hc : ((kvs.map Prod.fst).contains cname) = true
        · rw [if_pos hc] at he
          cases hcv : convertCell cdata with
          | error e => simp only [hcv] at he; exact Option.noConfusion he
          | ok v =>
            simp only [hcv] at he
            cases hsf : heapSetField (allocVal g v).1 r cname (allocVal g v).2 with
            | none => simp only [hsf] at he; exact Option.noConfusion he
            | some h₂ =>
              simp only [hsf] at he
              obtain ⟨hp, hrw, hcl⟩ := alloc_spec v g
              obtain ⟨hlen2, hne2, hclpres⟩ := heapSetField_spec hsf
              have hglen : g.length ≤ (allocVal g v).1.length := hp.length_le
              have hr2 : r < h₂.length := by omega
              have hclA : closedOn (allocVal g v).1 lo (allocVal g v).1.length :=
                closedOn_union
                  (closedOn_of_agree h3 (fun a _ ha2 => get?_of_prefix hp ha2))
                  hcl hlog hglen
              have hrwA : refsWithin (HVal.refs (allocVal g v).2) lo
                  (allocVal g v).1.length := by
                intro b hb
                obtain ⟨x, y⟩ := hrw b hb
                exact ⟨le_trans hlog x, y⟩
              have hcl2 : closedOn h₂ lo h₂.length := hclpres lo h1 hclA hrwA
              obtain ⟨hr'eq, hagree, hlen3, hcl3⟩ := ih h₂ r lo g' r' he h1 hr2 hcl2
              refine ⟨hr'eq, ?_, by omega, hcl3⟩
              intro a ha
              rw [hagree a ha, hne2 a (Nat.ne_of_lt (lt_of_lt_of_le ha h1)),
                get?_of_prefix hp (lt_of_lt_of_le ha hlog)]
        · rw [if_neg hc] at he
          exact ih g r lo g' r' he h1 h2 h3

theorem jsonifyRowH_spec {fuel : Nat} {g : Heap} {t : Nat} {row : Row} {g' : Heap} {r : Nat}
    (he : jsonifyRowH fuel g t row = some (g', r)) :
    (∀ a, a < g.length → g'.get? a = g.get? a) ∧
    g.length ≤ r ∧ r < g'.length ∧ g.length ≤ g'.length ∧
    closedOn g' g.length g'.length := by
  unfold jsonifyRowH at he
  cases hdc : deepcopyVal fuel g (.ref t) with
  | none => rw [hdc] at he; cases he
  | some p =>
    obtain ⟨g₁, v⟩ := p
    rw [hdc] at he
    cases v with
    | scalar w => cases he
    | ref r₁ =>
      obtain ⟨hp, hrw, hcl⟩ := (deepcopy_spec fuel).1 g (.ref t) g₁ (.ref r₁) hdc
      obtain ⟨hr1a, hr1b⟩ := hrw r₁ (by simp [HVal.refs])
      obtain ⟨hr'eq, hagree, hlen, hcl'⟩ :=
        jsonifyColsH_spec row g₁ r₁ g.length g' r he hr1a hr1b hcl
      subst hr'eq
      have hgl : g.length ≤ g₁.length := hp.length_le
      refine ⟨?_, hr1a, by omega, by omega, ?_⟩
      · intro a ha
        rw [hagree a ha, get?_of_prefix hp ha]
      · exact hcl'

theorem jsonifyH_spec (rows : List Row) :
    ∀ (fuel : Nat) (g : Heap) (t : Nat) (h' : Heap) (addrs : List Nat),
    jsonifyH fuel g t rows = some (h', addrs) →
    (∀ a, a < g.length → h'.get? a = g.get? a) ∧
    g.length ≤ h'.length ∧
    (∀ r ∈ addrs, ∃ lo hi, g.length ≤ lo ∧ lo ≤ r ∧ r < hi ∧ hi ≤ h'.length ∧
      closedOn h' lo hi) ∧
    List.Pairwise (fun r₁ r₂ => ∀ b, Reaches h' r₁ b → ¬ Reaches h' r₂ b) addrs := by
  induction rows with
  | nil =>
    intro fuel g t h' addrs he
    simp only [jsonifyH, Option.some.injEq, Prod.mk.injEq] at he
    obtain ⟨rfl, rfl⟩ := he
    exact ⟨fun a _ => rfl, le_rfl, by simp, by simp⟩
  | cons row rest ih =>
    intro fuel g t h' addrs he
    cases hrow : jsonifyRowH fuel g t row with
    | none => simp only [jsonifyH, hrow] at he; exact Option.noConfusion he
    | some p =>
      obtain ⟨g₁, r⟩ := p
      simp only [jsonifyH, hrow] at he
      cases hrest : jsonifyH fuel g₁ t rest with
      | none => simp only [hrest] at he; exact Option.noConfusion he
      | some q =>
        obtain ⟨h₂, rs⟩ := q
        simp only [hrest, Option.some.injEq, Prod.mk.injEq] at he
        obtain ⟨rfl, rfl⟩ := he
        obtain ⟨rag, hr1, hr2, hgl, rcl⟩ := jsonifyRowH_spec hrow
        obtain ⟨sag, sgl, sblocks, spw⟩ := ih fuel g₁ t h₂ rs hrest
        have hagree : ∀ a, a < g.length → h₂.get? a = g.get? a := by
          intro a ha
          rw [sag a (lt_of_lt_of_le ha hgl), rag a ha]
        have hclhead : closedOn h₂ g.length g₁.length :=
          closedOn_of_agree rcl (fun a _ ha2 => sag a ha2)
        refine ⟨hagree, by omega, ?_, ?_⟩
        · intro x hx
          rcases List.mem_cons.mp hx with rfl | hx
          · exact ⟨g.length, g₁.length, le_rfl, hr1, hr2, by omega, hclhead⟩
          · obtain ⟨lo, hi, b1, b2, b3, b4, b5⟩ := sblocks x hx
            exact ⟨lo, hi, by omega, b2, b3, b4, b5⟩
        · refine List.pairwise_cons.mpr ⟨?_, spw⟩
          intro r₂ hr₂ b hbr hbr₂
          obtain ⟨lo₂, hi₂, c1, c2, c3, c4, c5⟩ := sblocks r₂ hr₂
          have t1 := reaches_trap hclhead hr1 hr2 hbr
          have t2 := reaches_trap c5 c2 c3 hbr₂
          omega

/-- C10: the heap after `jsonify` leaves every pre-existing cell — in
particular every cell of the template's structure — exactly as it was, and
each returned row object is fresh: its mutable structure lies entirely in
newly allocated cells, disjoint from the template's structure and from every
other returned row object's structure. -/
theorem C10_jsonify_template_frame :
    ∀ (fuel : Nat) (h : Heap) (t : Nat) (rows : List Row) (h' : Heap) (addrs : List Nat),
    jsonifyH fuel h t rows = some (h', addrs) →
    heapClosed h → t < h.length →
    (∀ a, a < h.length → h'.get? a = h.get? a) ∧
    (∀ a, Reaches h t a → h'.get? a = h.get? a) ∧
    (∀ r ∈ addrs, h.length ≤ r ∧
      ∀ b, Reaches h' r b → h.length ≤ b ∧ ¬ Reaches h' t b) ∧
    List.Pairwise (fun r₁ r₂ => ∀ b, Reaches h' r₁ b → ¬ Reaches h' r₂ b) addrs := by
  intro fuel h t rows h' addrs he hclosed ht
  obtain ⟨hag, hlen, hblocks, hpw⟩ := jsonifyH_spec rows fuel h t h' addrs he
  have hcl0 : closedOn h' 0 h.length :=
    closedOn_of_agree hclosed (fun a _ ha2 => hag a ha2)
  refine ⟨hag, ?_, ?_, hpw⟩
  · intro a hr
    exact hag a (reaches_trap hclosed (Nat.zero_le t) ht hr).2
  · intro r hr
    obtain ⟨lo, hi, b1, b2, b3, b4, b5⟩ := hblocks r hr
    refine ⟨by omega, ?_⟩
    intro b hbr
    have t1 := reaches_trap b5 b2 b3 hbr
    refine ⟨by omega, ?_⟩
    intro hbt
    have t2 := reaches_trap hcl0 (Nat.zero_le t) ht hbt
    omega

/-- Witness for C10 at the concrete template heap and rows. -/
theorem C10_jsonify_template_frame_witness :
    (∀ a, a < tmplHeap.length → outHeap.get? a = tmplHeap.get? a) ∧
    (∀ r ∈ [3, 5], tmplHeap.length ≤ r ∧
      ∀ b, Reaches outHeap r b → tmplHeap.length ≤ b ∧ ¬ Reaches outHeap 0 b) ∧
    List.Pairwise (fun r₁ r₂ => ∀ b, Reaches outHeap r₁ b → ¬ Reaches outHeap r₂ b)
      [3, 5] := by
  have hc : heapClosed tmplHeap := by
    intro a ha0 ha2 cell hcell b hb
    simp only [tmplHeap, List.length_cons, List.length_nil] at ha2
    simp only [tmplHeap, List.get?] at hcell
    interval_cases a <;> cases hcell <;> simp_all [HCell.refs, HVal.refs, tmplHeap]
  have h := C10_jsonify_template_frame 9 tmplHeap 0 tmplRows outHeap [3, 5] rfl hc
    (by simp [tmplHeap])
  exact ⟨h.1, h.2.2.1, h.2.2.2⟩

end Excel2bSDD
